import Mathlib

/-!
Shallow embedding of `pa3.c`, a simulation of a two-level virtual memory
subsystem: TLB, two-level page table, on-demand frame allocation,
copy-on-write fork, and process switching.

Modelling conventions:
* C `unsigned int` counters are `Nat` reduced modulo `2 ^ 32` wherever the
  source increments or decrements them (`uinc` / `udec`).
* The fixed-size C arrays (`outer_ptes`, inner `ptes`, `mapcounts`) are
  modelled as total functions on `Nat`; the C program only ever indexes them
  below the configured bounds (indexing beyond is undefined behaviour in C
  and is visible in the model as accesses at indices `≥` the bound).
* `malloc`-ed memory, whose contents are indeterminate in C, is modelled as
  zero-initialized (`defaultPTE`), the weakest concrete choice.
* The TLB array together with `tlbSize` is modelled as the list of its first
  `tlbSize` entries: `insert_tlb` appends, the `memset` in `switch_process`
  zeroes every entry while keeping the length (the source does not reset
  `tlbSize`), and the `tlbSize--` in `free_page` drops the last entry.
* `free_page` dereferences a NULL outer-directory pointer when the directory
  is missing; this crash is modelled by returning `none`.
-/

namespace PA3

/-- Modelled from the spec: `NR_PTES_PER_PAGE` is a fixed configuration
constant from the header `vm.h`, which is not among the given sources; the
spec fixes a two-level table with this many entries per level. -/
def NR_PTES_PER_PAGE : Nat := 16

/-- Modelled from the spec: `NR_PAGEFRAMES`, the number of physical page
frames, a fixed configuration constant from `vm.h`. -/
def NR_PAGEFRAMES : Nat := 128

/-- Modelled from the spec: the `RW_READ` permission flag from `vm.h`. -/
def RW_READ : Nat := 1

/-- Modelled from the spec: the `RW_WRITE` permission flag from `vm.h`. -/
def RW_WRITE : Nat := 2

/-- Modulus of C `unsigned int` arithmetic. -/
def UINT_MOD : Nat := 2 ^ 32

/-- `c + 1` on an `unsigned int` (`mapcounts[x]++`). -/
def uinc (c : Nat) : Nat := (c + 1) % UINT_MOD

/-- `c - 1` on an `unsigned int` (`mapcounts[x]--`), wrapping at zero. -/
def udec (c : Nat) : Nat := (c + (UINT_MOD - 1)) % UINT_MOD

/-- `struct pte`: valid bit, writable bit, bound frame number, and the
`private` field the source uses to remember the original permission. -/
structure PTE where
  valid : Bool
  writable : Bool
  pfn : Nat
  «private» : Nat
deriving DecidableEq

/-- Zero-initialized PTE (model of fresh `malloc`-ed memory). -/
def defaultPTE : PTE := ⟨false, false, 0, 0⟩

/-- `struct pte_directory`: one inner directory of PTEs. -/
structure PTEDir where
  ptes : Nat → PTE

/-- `struct pagetable`: outer array of (nullable) inner directory pointers. -/
structure PageTable where
  outer_ptes : Nat → Option PTEDir

def emptyDir : PTEDir := ⟨fun _ => defaultPTE⟩

def emptyPageTable : PageTable := ⟨fun _ => none⟩

/-- `struct tlb_entry`. -/
structure TLBEntry where
  valid : Bool
  vpn : Nat
  pfn : Nat
deriving DecidableEq

/-- `struct process`: pid and its page table (the list linkage is modelled by
membership in `State.processes`). -/
structure Process where
  pid : Nat
  pagetable : PageTable

/-- The global state of `pa3.c`: the running process (whose page table is
what `ptbr` points at), the ready queue `processes`, the TLB contents
`tlb[0] .. tlb[tlbSize-1]`, and `mapcounts`. -/
structure State where
  current : Process
  processes : List Process
  tlb : List TLBEntry
  mapcounts : Nat → Nat

/-- The inner directory at outer index `o`, with the lazy `malloc` of
`alloc_page` modelled by defaulting to a zeroed directory. -/
def getDir (pt : PageTable) (o : Nat) : PTEDir := (pt.outer_ptes o).getD emptyDir

def setDir (pt : PageTable) (o : Nat) (d : PTEDir) : PageTable :=
  ⟨fun i => if i = o then some d else pt.outer_ptes i⟩

def setPteInDir (d : PTEDir) (i : Nat) (e : PTE) : PTEDir :=
  ⟨fun j => if j = i then e else d.ptes j⟩

/-- The PTE the source reaches as
`ptbr->outer_ptes[vpn / NR_PTES_PER_PAGE]->ptes[vpn % NR_PTES_PER_PAGE]`
(defaulting to a zeroed PTE when the directory is missing). -/
def getPte (s : State) (vpn : Nat) : PTE :=
  (getDir s.current.pagetable (vpn / NR_PTES_PER_PAGE)).ptes (vpn % NR_PTES_PER_PAGE)

/-- `lookup_tlb`: linear scan over `tlb[0..tlbSize)`, returning the first
entry whose `vpn` matches (the source does not test the entry's valid bit). -/
def lookup_tlb (s : State) (vpn : Nat) : Option Nat :=
  (s.tlb.find? (fun e => e.vpn == vpn)).map (fun e => e.pfn)

/-- `insert_tlb`: writes a fresh valid entry at `tlb[tlbSize]` and increments
`tlbSize`, i.e. appends it. -/
def insert_tlb (s : State) (vpn pfn : Nat) : State :=
  { s with tlb := s.tlb ++ [⟨true, vpn, pfn⟩] }

/-- `find_smallest_pfn`'s scan: try indices `i, i+1, ...` for `fuel` steps,
returning `NR_PAGEFRAMES` when none has mapcount `0`. -/
def find_aux (m : Nat → Nat) : Nat → Nat → Nat
  | _, 0 => NR_PAGEFRAMES
  | i, fuel + 1 => if m i = 0 then i else find_aux m (i + 1) fuel

/-- `find_smallest_pfn`: index of the first frame with mapcount `0`, or
`NR_PAGEFRAMES` when every frame is in use. -/
def find_smallest_pfn (m : Nat → Nat) : Nat := find_aux m 0 NR_PAGEFRAMES

/-- The PTE mutations `alloc_page` performs before looking for a frame:
`pte->valid = true`, then the permission bits according to `rw` (lines
143-149 of `pa3.c`; an `rw` that is neither `RW_READ` nor
`RW_WRITE|RW_READ` sets neither `writable` nor `private`). -/
def alloc_pte (e : PTE) (rw : Nat) : PTE :=
  let pte1 : PTE := { e with valid := true }
  if rw = RW_READ then { pte1 with writable := false, «private» := RW_READ }
  else if rw = (RW_WRITE ||| RW_READ) then { pte1 with writable := true }
  else pte1

/-- `alloc_page`: validates (and permission-tags) the PTE for `vpn`, then
binds the smallest free frame, or returns `-1` (`(unsigned)-1` in C) with the
PTE already mutated when every frame is taken. -/
def alloc_page (s : State) (vpn rw : Nat) : Int × State :=
  let outer := vpn / NR_PTES_PER_PAGE
  let inner := vpn % NR_PTES_PER_PAGE
  let d := getDir s.current.pagetable outer
  let pte2 : PTE := alloc_pte (d.ptes inner) rw
  let smallest := find_smallest_pfn s.mapcounts
  if smallest = NR_PAGEFRAMES then
    (-1,
      { s with current := { s.current with
          pagetable := setDir s.current.pagetable outer (setPteInDir d inner pte2) } })
  else
    (Int.ofNat smallest,
      { s with
        current := { s.current with
          pagetable := setDir s.current.pagetable outer
            (setPteInDir d inner { pte2 with pfn := smallest }) },
        mapcounts := fun k =>
          if k = smallest then uinc (s.mapcounts smallest) else s.mapcounts k })

/-- The TLB part of `free_page`: the loop marks the first entry for `vpn`
invalid and decrements `tlbSize`, which hides the *last* entry of the array
from future lookups (the marked entry keeps its `vpn` field). -/
def evict_tlb (l : List TLBEntry) (vpn : Nat) : List TLBEntry :=
  match l.findIdx? (fun e => e.vpn == vpn) with
  | none => l
  | some i =>
    match l.get? i with
    | none => l
    | some e => (l.set i { e with valid := false }).dropLast

/-- `free_page`: clears the PTE, decrements the mapcount of the frame the PTE
named (whatever its valid bit was), and runs the TLB eviction loop.  When the
outer directory is missing the C code dereferences NULL; the model returns
`none` there. -/
def free_page (s : State) (vpn : Nat) : Option State :=
  let outer := vpn / NR_PTES_PER_PAGE
  let inner := vpn % NR_PTES_PER_PAGE
  match s.current.pagetable.outer_ptes outer with
  | none => none
  | some d =>
    let pte := d.ptes inner
    let pte' : PTE := { pte with valid := false, writable := false, pfn := 0 }
    some { s with
      current := { s.current with
        pagetable := setDir s.current.pagetable outer (setPteInDir d inner pte') },
      mapcounts := fun k =>
        if k = pte.pfn then udec (s.mapcounts pte.pfn) else s.mapcounts k,
      tlb := evict_tlb s.tlb vpn }

/-- `handle_page_fault`: classifies the fault and performs copy-on-write when
needed, returning the success flag together with the post state. -/
def handle_page_fault (s : State) (vpn rw : Nat) : Bool × State :=
  let outer := vpn / NR_PTES_PER_PAGE
  let inner := vpn % NR_PTES_PER_PAGE
  match s.current.pagetable.outer_ptes outer with
  | none => (false, s)
  | some d =>
    let pte := d.ptes inner
    if pte.valid = false then (false, s)
    else if pte.writable = false ∧ rw &&& RW_WRITE = RW_WRITE then
      if pte.«private» = RW_READ then (false, s)
      else if s.mapcounts pte.pfn = 1 then
        (true, { s with current := { s.current with
          pagetable := setDir s.current.pagetable outer
            (setPteInDir d inner { pte with writable := true }) } })
      else if 2 ≤ s.mapcounts pte.pfn then
        let mc1 : Nat → Nat := fun k =>
          if k = pte.pfn then udec (s.mapcounts pte.pfn) else s.mapcounts k
        let newpfn := find_smallest_pfn mc1
        (true, { s with
          current := { s.current with
            pagetable := setDir s.current.pagetable outer
              (setPteInDir d inner { pte with writable := true, pfn := newpfn }) },
          mapcounts := fun k => if k = newpfn then uinc (mc1 newpfn) else mc1 k })
      else (false, s)
    else (false, s)

/-- The fork loop's effect on one parent PTE: valid entries are
write-protected, invalid ones are untouched. -/
def fork_pte_parent (e : PTE) : PTE :=
  if e.valid then { e with writable := false } else e

/-- The fork loop's effect on the child's copy of one parent PTE: for a valid
parent entry, `forkedPte` keeps `pfn` and `private` and is forced valid and
non-writable; slots for invalid parent entries are never written (fresh
`malloc`-ed memory, modelled zeroed). -/
def fork_pte_child (e : PTE) : PTE :=
  if e.valid then ⟨true, false, e.pfn, e.«private»⟩ else defaultPTE

def fork_dir_parent (d : PTEDir) : PTEDir :=
  ⟨fun j => if j < NR_PTES_PER_PAGE then fork_pte_parent (d.ptes j) else d.ptes j⟩

def fork_dir_child (d : PTEDir) : PTEDir :=
  ⟨fun j => if j < NR_PTES_PER_PAGE then fork_pte_child (d.ptes j) else defaultPTE⟩

/-- The parent page table after the fork loop (the loop touches the outer
indices `0 .. NR_PTES_PER_PAGE-1`, each entry exactly once, so its effect is
pointwise). -/
def fork_parent_pt (pt : PageTable) : PageTable :=
  ⟨fun i => if i < NR_PTES_PER_PAGE then (pt.outer_ptes i).map fork_dir_parent
            else pt.outer_ptes i⟩

/-- The child page table built by the fork loop: an inner directory is
`malloc`-ed exactly for the outer slots the parent has one. -/
def fork_child_pt (pt : PageTable) : PageTable :=
  ⟨fun i => if i < NR_PTES_PER_PAGE then (pt.outer_ptes i).map fork_dir_child
            else none⟩

/-- `mapcounts[f]++` as a function update. -/
def bump (mc : Nat → Nat) (f : Nat) : Nat → Nat :=
  fun k => if k = f then uinc (mc f) else mc k

/-- The inner fork loop's `mapcounts` increments for one directory. -/
def fork_dir_counts (d : PTEDir) (mc : Nat → Nat) : Nat → Nat :=
  (List.range NR_PTES_PER_PAGE).foldl
    (fun b j => if (d.ptes j).valid then bump b (d.ptes j).pfn else b) mc

/-- The whole fork loop's `mapcounts` increments: one `mapcounts[pfn]++` per
valid parent entry, in loop order. -/
def fork_mapcounts (pt : PageTable) (mc : Nat → Nat) : Nat → Nat :=
  (List.range NR_PTES_PER_PAGE).foldl
    (fun a i =>
      match pt.outer_ptes i with
      | none => a
      | some d => fork_dir_counts d a) mc

/-- `memset(tlb, 0, sizeof(tlb))`: every entry is zeroed; `tlbSize` is *not*
reset, so the length is kept. -/
def flush_tlb (l : List TLBEntry) : List TLBEntry := l.map (fun _ => ⟨false, 0, 0⟩)

/-- `switch_process`: zero the TLB entries, then either resume the first
ready process with the requested pid (moving the current one to the tail of
the ready queue) or fork a child with that pid from the current process. -/
def switch_process (s : State) (pid : Nat) : State :=
  let s1 : State := { s with tlb := flush_tlb s.tlb }
  match s1.processes.find? (fun p => p.pid == pid) with
  | some p =>
    { s1 with
      current := p,
      processes := (s1.processes.eraseP (fun q => q.pid == pid)) ++ [s1.current] }
  | none =>
    { s1 with
      current := ⟨pid, fork_child_pt s1.current.pagetable⟩,
      processes := s1.processes ++
        [{ s1.current with pagetable := fork_parent_pt s1.current.pagetable }],
      mapcounts := fork_mapcounts s1.current.pagetable s1.mapcounts }

/-- Modelled from the spec: the initial state set up by the external
framework — a root process with PID 0 and an empty page table, empty ready
queue, empty TLB, and all frame reference counts zero. -/
def initState : State := ⟨⟨0, emptyPageTable⟩, [], [], fun _ => 0⟩

/-- One externally visible operation of the core. -/
inductive Op where
  | alloc (vpn rw : Nat)
  | free (vpn : Nat)
  | fault (vpn rw : Nat)
  | switch (pid : Nat)
  | insert (vpn pfn : Nat)
  | lookup (vpn : Nat)

/-- State effect of one operation (`none` where the C code crashes). -/
def apply_op (s : State) : Op → Option State
  | .alloc vpn rw => some (alloc_page s vpn rw).2
  | .free vpn => free_page s vpn
  | .fault vpn rw => some (handle_page_fault s vpn rw).2
  | .switch pid => some (switch_process s pid)
  | .insert vpn pfn => some (insert_tlb s vpn pfn)
  | .lookup _ => some s

/-- States reachable from the initial state by any sequence of operations. -/
inductive Reach : State → Prop where
  | init : Reach initState
  | step {s s' : State} (o : Op) : Reach s → apply_op s o = some s' → Reach s'

/-- The original-permission tag the fault handler consults for `vpn` in the
running process (`pte->private`; `0` stands for the zero-modelled contents of
a missing directory). -/
def entryTag (s : State) (vpn : Nat) : Nat := (getPte s vpn).«private»

/-! ### Basic arithmetic and search lemmas -/

theorem uinc_lt (c : Nat) : uinc c < UINT_MOD := by
  have : 0 < UINT_MOD := by decide
  exact Nat.mod_lt _ this

theorem uinc_eq_of_lt {c : Nat} (h : c + 1 < UINT_MOD) : uinc c = c + 1 := by
  simpa [uinc] using Nat.mod_eq_of_lt h

theorem udec_eq_of_pos {c : Nat} (h0 : 1 ≤ c) (h1 : c < UINT_MOD) : udec c = c - 1 := by
  unfold udec
  have h2 : c + (UINT_MOD - 1) = (c - 1) + UINT_MOD := by omega
  rw [h2, Nat.add_mod_right]
  exact Nat.mod_eq_of_lt (by omega)

theorem find_aux_spec (m : Nat → Nat) :
    ∀ fuel i : Nat,
      (find_aux m i fuel = NR_PAGEFRAMES ∧ ∀ k, i ≤ k → k < i + fuel → m k ≠ 0) ∨
      (i ≤ find_aux m i fuel ∧ find_aux m i fuel < i + fuel ∧
        m (find_aux m i fuel) = 0 ∧ ∀ k, i ≤ k → k < find_aux m i fuel → m k ≠ 0) := by
  intro fuel
  induction fuel with
  | zero => intro i; exact Or.inl ⟨rfl, fun k hk hk' => absurd (Nat.lt_of_le_of_lt hk hk') (by omega)⟩
  | succ n ih =>
    intro i
    by_cases h : m i = 0
    · right
      have step : find_aux m i (n + 1) = i := by simp [find_aux, h]
      rw [step]
      exact ⟨Nat.le_refl i, by omega, h, fun k hk hk' => absurd (Nat.lt_of_le_of_lt hk hk') (by omega)⟩
    · have step : find_aux m i (n + 1) = find_aux m (i + 1) n := by
        simp [find_aux, h]
      rcases ih (i + 1) with ⟨he, hall⟩ | ⟨h1, h2, h3, h4⟩
      · left
        refine ⟨by rw [step]; exact he, fun k hk hk' => ?_⟩
        rcases Nat.eq_or_lt_of_le hk with rfl | hlt
        · exact h
        · exact hall k hlt (by omega)
      · right
        rw [step]
        refine ⟨by omega, by omega, h3, fun k hk hk' => ?_⟩
        rcases Nat.eq_or_lt_of_le hk with rfl | hlt
        · exact h
        · exact h4 k hlt hk'

theorem find_smallest_pfn_spec (m : Nat → Nat)
    (h : ∃ f, f < NR_PAGEFRAMES ∧ m f = 0) :
    find_smallest_pfn m < NR_PAGEFRAMES ∧ m (find_smallest_pfn m) = 0 ∧
      ∀ k, k < find_smallest_pfn m → m k ≠ 0 := by
  obtain ⟨f, hf, hf0⟩ := h
  rcases find_aux_spec m NR_PAGEFRAMES 0 with ⟨_, hall⟩ | ⟨_, h2, h3, h4⟩
  · exact absurd hf0 (hall f (Nat.zero_le f) (by omega))
  · exact ⟨by simpa [find_smallest_pfn] using h2,
      by simpa [find_smallest_pfn] using h3,
      fun k hk => h4 k (Nat.zero_le k) (by simpa [find_smallest_pfn] using hk)⟩

theorem find_smallest_pfn_full (m : Nat → Nat)
    (h : ∀ f, f < NR_PAGEFRAMES → m f ≠ 0) :
    find_smallest_pfn m = NR_PAGEFRAMES := by
  rcases find_aux_spec m NR_PAGEFRAMES 0 with ⟨he, _⟩ | ⟨_, h2, h3, _⟩
  · simpa [find_smallest_pfn] using he
  · exact absurd h3 (h _ (by simpa [find_smallest_pfn] using h2))

/-- `vpn` is determined by its outer and inner indices. -/
theorem vpn_eq_of_div_mod {a b : Nat}
    (hd : a / NR_PTES_PER_PAGE = b / NR_PTES_PER_PAGE)
    (hm : a % NR_PTES_PER_PAGE = b % NR_PTES_PER_PAGE) : a = b := by
  have hN : NR_PTES_PER_PAGE = 16 := rfl
  rw [hN] at hd hm
  omega

/-- Reading an entry after the single-PTE update the mutating operations
perform. -/
theorem getPte_setDir (s : State) (p : Process) (pid : Nat) (vpn : Nat) (e : PTE) (v : Nat) :
    getPte { s with current := ⟨pid,
        setDir p.pagetable (vpn / NR_PTES_PER_PAGE)
          (setPteInDir (getDir p.pagetable (vpn / NR_PTES_PER_PAGE)) (vpn % NR_PTES_PER_PAGE) e)⟩ } v =
      if v = vpn then e else getPte { s with current := p } v := by
  by_cases hv : v = vpn
  · subst hv
    simp [getPte, getDir, setDir, setPteInDir]
  · have : v / NR_PTES_PER_PAGE ≠ vpn / NR_PTES_PER_PAGE ∨
        v % NR_PTES_PER_PAGE ≠ vpn % NR_PTES_PER_PAGE := by
      by_contra hc
      push_neg at hc
      exact hv (vpn_eq_of_div_mod hc.1 hc.2)
    rcases this with hne | hne
    · simp [getPte, getDir, setDir, hv, hne]
    · by_cases ho : v / NR_PTES_PER_PAGE = vpn / NR_PTES_PER_PAGE
      · simp [getPte, getDir, setDir, setPteInDir, hv, ho, hne]
      · simp [getPte, getDir, setDir, hv, ho]

/-! ### The read-only invariant (claim C1) -/

/-- A PTE respects the read-only tag: an entry tagged `RW_READ` is not
writable. -/
def pteOK (e : PTE) : Prop := e.«private» = RW_READ → e.writable = false

/-- Every entry of every present inner directory respects the tag. -/
def ptOK (pt : PageTable) : Prop :=
  ∀ i d, pt.outer_ptes i = some d → ∀ j, pteOK (d.ptes j)

/-- The read-only invariant over the whole state: the running process's page
table and every ready process's page table respect the tag. -/
def Inv (s : State) : Prop :=
  ptOK s.current.pagetable ∧ ∀ p ∈ s.processes, ptOK p.pagetable

theorem getDir_eq {pt : PageTable} {o : Nat} {d : PTEDir}
    (h : pt.outer_ptes o = some d) : getDir pt o = d := by
  simp [getDir, h]

theorem pteOK_default : pteOK defaultPTE := fun _ => rfl

theorem ptOK_getDir {pt : PageTable} (h : ptOK pt) (o j : Nat) :
    pteOK ((getDir pt o).ptes j) := by
  unfold getDir
  cases hc : pt.outer_ptes o with
  | none => exact fun _ => rfl
  | some d => exact h o d hc j

theorem ptOK_update {pt : PageTable} (o i : Nat) (e : PTE)
    (h : ptOK pt) (he : pteOK e) :
    ptOK (setDir pt o (setPteInDir (getDir pt o) i e)) := by
  intro i' d' hd' j
  simp only [setDir] at hd'
  by_cases hio : i' = o
  · rw [if_pos hio] at hd'
    cases hd'
    simp only [setPteInDir]
    by_cases hj : j = i
    · simpa [hj] using he
    · simpa [hj] using ptOK_getDir h o j
  · rw [if_neg hio] at hd'
    exact h i' d' hd' j

theorem pteOK_alloc_pte {e : PTE} (rw : Nat)
    (he : pteOK e) (hok : rw = RW_WRITE ||| RW_READ → e.«private» ≠ RW_READ) :
    pteOK (alloc_pte e rw) := by
  unfold alloc_pte
  by_cases h1 : rw = RW_READ
  · simp [h1, pteOK]
  · by_cases h2 : rw = RW_WRITE ||| RW_READ
    · simp only [h1, if_false, h2, if_true, if_pos rfl]
      intro hp
      exact absurd hp (hok h2)
    · simp only [h1, h2, if_false]
      exact he

theorem pteOK_set_pfn {e : PTE} (n : Nat) (he : pteOK e) :
    pteOK { e with pfn := n } := he

theorem Inv_alloc (s : State) (vpn rw : Nat) (h : Inv s)
    (hok : rw = RW_WRITE ||| RW_READ → entryTag s vpn ≠ RW_READ) :
    Inv (alloc_page s vpn rw).2 := by
  have hok' : rw = RW_WRITE ||| RW_READ →
      ((getDir s.current.pagetable (vpn / NR_PTES_PER_PAGE)).ptes
        (vpn % NR_PTES_PER_PAGE)).«private» ≠ RW_READ := hok
  have hpte : pteOK ((getDir s.current.pagetable (vpn / NR_PTES_PER_PAGE)).ptes
      (vpn % NR_PTES_PER_PAGE)) := ptOK_getDir h.1 _ _
  unfold alloc_page
  dsimp only
  split
  · exact ⟨ptOK_update _ _ _ h.1 (pteOK_alloc_pte rw hpte hok'), h.2⟩
  · exact ⟨ptOK_update _ _ _ h.1 (pteOK_set_pfn _ (pteOK_alloc_pte rw hpte hok')), h.2⟩

theorem Inv_free (s : State) (vpn : Nat) (s' : State) (h : Inv s)
    (hf : free_page s vpn = some s') : Inv s' := by
  simp only [free_page] at hf
  split at hf
  · exact Option.noConfusion hf
  · rename_i d hc
    injection hf with hf
    subst hf
    refine ⟨?_, h.2⟩
    rw [← getDir_eq hc]
    exact @ptOK_update s.current.pagetable _ _ _ h.1 (fun _ => rfl)

theorem Inv_fault (s : State) (vpn rw : Nat) (h : Inv s) :
    Inv (handle_page_fault s vpn rw).2 := by
  unfold handle_page_fault
  dsimp only
  split
  · exact h
  · rename_i d hc
    split
    · exact h
    · split
      · split
        · exact h
        · rename_i hpriv
          split
          · refine ⟨?_, h.2⟩
            rw [← getDir_eq hc] at hpriv ⊢
            exact @ptOK_update s.current.pagetable _ _ _ h.1 (fun hp => absurd hp hpriv)
          · split
            · refine ⟨?_, h.2⟩
              rw [← getDir_eq hc] at hpriv ⊢
              exact @ptOK_update s.current.pagetable _ _ _ h.1 (fun hp => absurd hp hpriv)
            · exact h
      · exact h

theorem pteOK_fork_pte_parent {e : PTE} (he : pteOK e) :
    pteOK (fork_pte_parent e) := by
  unfold fork_pte_parent
  split
  · exact fun _ => rfl
  · exact he

theorem pteOK_fork_pte_child (e : PTE) : pteOK (fork_pte_child e) := by
  unfold fork_pte_child
  split
  · exact fun _ => rfl
  · exact fun _ => rfl

theorem ptOK_fork_parent {pt : PageTable} (h : ptOK pt) :
    ptOK (fork_parent_pt pt) := by
  intro i d hd j
  simp only [fork_parent_pt] at hd
  by_cases hi : i < NR_PTES_PER_PAGE
  · rw [if_pos hi] at hd
    obtain ⟨d0, hd0, rfl⟩ := Option.map_eq_some'.mp hd
    simp only [fork_dir_parent]
    by_cases hj : j < NR_PTES_PER_PAGE
    · simpa [hj] using pteOK_fork_pte_parent (h i d0 hd0 j)
    · simpa [hj] using h i d0 hd0 j
  · rw [if_neg hi] at hd
    exact h i d hd j

theorem ptOK_fork_child (pt : PageTable) : ptOK (fork_child_pt pt) := by
  intro i d hd j
  simp only [fork_child_pt] at hd
  by_cases hi : i < NR_PTES_PER_PAGE
  · rw [if_pos hi] at hd
    obtain ⟨d0, _, rfl⟩ := Option.map_eq_some'.mp hd
    simp only [fork_dir_child]
    by_cases hj : j < NR_PTES_PER_PAGE
    · simpa [hj] using pteOK_fork_pte_child (d0.ptes j)
    · simpa [hj] using pteOK_default
  · rw [if_neg hi] at hd
    cases hd

theorem Inv_switch (s : State) (pid : Nat) (h : Inv s) :
    Inv (switch_process s pid) := by
  unfold switch_process
  dsimp only
  split
  · rename_i p hc
    refine ⟨h.2 p (List.mem_of_find?_eq_some hc), ?_⟩
    intro q hq
    rcases List.mem_append.mp hq with hq | hq
    · exact h.2 q (List.eraseP_subset _ hq)
    · rcases List.mem_singleton.mp hq with rfl
      exact h.1
  · refine ⟨ptOK_fork_child _, ?_⟩
    intro q hq
    rcases List.mem_append.mp hq with hq | hq
    · exact h.2 q hq
    · rcases List.mem_singleton.mp hq with rfl
      exact ptOK_fork_parent h.1

theorem Inv_insert (s : State) (vpn pfn : Nat) (h : Inv s) :
    Inv (insert_tlb s vpn pfn) := h

theorem Inv_init : Inv initState := by
  refine ⟨fun i d hd => ?_, fun p hp => absurd hp (List.not_mem_nil p)⟩
  simp [initState, emptyPageTable] at hd

/-- An operation is within the framework's contract for the read-only
invariant when it does not re-allocate, with read-write permission, a page
whose entry already carries the read-only tag. -/
def okOp (s : State) : Op → Prop
  | .alloc vpn rw => rw = RW_WRITE ||| RW_READ → entryTag s vpn ≠ RW_READ
  | _ => True

/-- States reachable by sequences of operations all satisfying `okOp`. -/
inductive ReachOK : State → Prop where
  | init : ReachOK initState
  | step {s s' : State} (o : Op) :
      ReachOK s → okOp s o → apply_op s o = some s' → ReachOK s'

theorem Inv_reachOK {s : State} (h : ReachOK s) : Inv s := by
  induction h with
  | init => exact Inv_init
  | step o hre hok happ ih =>
    cases o with
    | alloc vpn rw =>
      cases happ
      exact Inv_alloc _ vpn rw ih hok
    | free vpn => exact Inv_free _ vpn _ ih happ
    | fault vpn rw =>
      cases happ
      exact Inv_fault _ vpn rw ih
    | switch pid =>
      cases happ
      exact Inv_switch _ pid ih
    | insert vpn pfn =>
      cases happ
      exact Inv_insert _ vpn pfn ih
    | lookup vpn =>
      cases happ
      exact ih

/-- A write fault on an entry whose tag is `RW_READ` always fails, in any
state: both success branches of the handler require `pte->private !=
RW_READ`. -/
theorem fault_readonly_false (s : State) (vpn rw : Nat)
    (ht : entryTag s vpn = RW_READ) (_hw : rw &&& RW_WRITE = RW_WRITE) :
    (handle_page_fault s vpn rw).1 = false := by
  unfold handle_page_fault
  dsimp only
  split
  · rfl
  · rename_i d hc
    have hp : (d.ptes (vpn % NR_PTES_PER_PAGE)).«private» = RW_READ := by
      unfold entryTag getPte at ht
      rw [getDir_eq hc] at ht
      exact ht
    split
    · rfl
    · split
      · simp [hp]
      · rfl

/-! ### Claim C1 -/

/-- The state after `alloc_page(0, RW_READ)` followed by
`alloc_page(0, RW_WRITE|RW_READ)` on the same virtual page. -/
def cexC1 : State :=
  (alloc_page (alloc_page initState 0 RW_READ).2 0 (RW_WRITE ||| RW_READ)).2

/-- Claim C1 counterexample: quantified over arbitrary sequences of the six
operations, the claim fails.  Allocating vpn 0 read-only and then allocating
the same vpn read-write reaches a state whose entry for vpn 0 still carries
the read-only original-permission tag (`private = RW_READ`, set by the first
allocation and never cleared) yet has `writable = true`, because the
read-write branch of `alloc_page` sets `writable` without inspecting
`private`. -/
theorem C1_counterexample :
    Reach cexC1 ∧ entryTag cexC1 0 = RW_READ ∧ (getPte cexC1 0).valid = true ∧
      (getPte cexC1 0).writable = true :=
  ⟨Reach.step (Op.alloc 0 (RW_WRITE ||| RW_READ))
      (Reach.step (Op.alloc 0 RW_READ) Reach.init rfl) rfl,
    by decide, by decide, by decide⟩

/-- Claim C1 (amended): in every state reachable by sequences of the six
operations in which `alloc_page` with read-write permission is never applied
to a virtual page whose entry already carries the read-only tag (`ReachOK`),
every page-table entry of every process that carries the read-only
original-permission tag has `writable = false`; moreover `handle_page_fault`
for a write access to a page with the read-only tag returns failure. -/
theorem C1_readonly_invariant (s : State) (h : ReachOK s) :
    (∀ p, (p = s.current ∨ p ∈ s.processes) →
      ∀ i d, p.pagetable.outer_ptes i = some d →
        ∀ j, (d.ptes j).«private» = RW_READ → (d.ptes j).writable = false) ∧
    (∀ vpn rw, entryTag s vpn = RW_READ → rw &&& RW_WRITE = RW_WRITE →
      (handle_page_fault s vpn rw).1 = false) := by
  have hInv := Inv_reachOK h
  refine ⟨?_, fun vpn rw ht hw => fault_readonly_false s vpn rw ht hw⟩
  intro p hp
  rcases hp with rfl | hp
  · exact fun i d hd j => hInv.1 i d hd j
  · exact fun i d hd j => hInv.2 p hp i d hd j

/-- The state after a single read-only allocation of vpn 5. -/
def c1w : State := (alloc_page initState 5 RW_READ).2

theorem C1_readonly_invariant_witness :
    (entryTag c1w 5 = RW_READ ∧ (getPte c1w 5).writable = false) ∧
      (handle_page_fault c1w 5 (RW_WRITE ||| RW_READ)).1 = false := by
  have hre : ReachOK c1w :=
    ReachOK.step (Op.alloc 5 RW_READ) ReachOK.init
      (fun hcontra => absurd hcontra (by decide)) rfl
  have hmain := C1_readonly_invariant c1w hre
  refine ⟨⟨by decide, ?_⟩, hmain.2 5 (RW_WRITE ||| RW_READ) (by decide) (by decide)⟩
  exact hmain.1 c1w.current (Or.inl rfl) 0 _ rfl 5 (by decide)

/-! ### More helper lemmas about entry access -/

theorem getPte_of_dir {s : State} {vpn : Nat} {d : PTEDir}
    (hd : s.current.pagetable.outer_ptes (vpn / NR_PTES_PER_PAGE) = some d) :
    getPte s vpn = d.ptes (vpn % NR_PTES_PER_PAGE) := by
  rw [getPte, getDir_eq hd]

/-- A valid `getPte` result can only come from a present inner directory
(missing directories read as the invalid `defaultPTE`). -/
theorem getPte_valid_dir {s : State} {vpn : Nat}
    (hv : (getPte s vpn).valid = true) :
    ∃ d, s.current.pagetable.outer_ptes (vpn / NR_PTES_PER_PAGE) = some d := by
  rcases hd : s.current.pagetable.outer_ptes (vpn / NR_PTES_PER_PAGE) with _ | d
  · rw [getPte, getDir, hd] at hv
    exact absurd hv (by simp [emptyDir, defaultPTE])
  · exact ⟨d, rfl⟩

/-! ### Claim C8 -/

/-- Claim C8: a fault for a vpn whose outer directory is missing, or whose
PTE is invalid, fails and returns the state unchanged (page table, mapcounts
and TLB included). -/
theorem C8_true_fault_no_change (s : State) (vpn rw : Nat)
    (h : s.current.pagetable.outer_ptes (vpn / NR_PTES_PER_PAGE) = none ∨
      ∃ d, s.current.pagetable.outer_ptes (vpn / NR_PTES_PER_PAGE) = some d ∧
        (d.ptes (vpn % NR_PTES_PER_PAGE)).valid = false) :
    handle_page_fault s vpn rw = (false, s) := by
  unfold handle_page_fault
  dsimp only
  split
  · rfl
  · rename_i d' hcm
    rcases h with hc | ⟨d, hc, hv⟩
    · rw [hcm] at hc
      exact Option.noConfusion hc
    · rw [hcm] at hc
      injection hc with hc
      subst hc
      rw [if_pos hv]

theorem C8_true_fault_no_change_witness :
    handle_page_fault initState 0 (RW_WRITE ||| RW_READ) = (false, initState) :=
  C8_true_fault_no_change initState 0 (RW_WRITE ||| RW_READ) (Or.inl rfl)

/-! ### Claim C5 -/

/-- Functional description of the sole-owner write-fault branch
(`mapcounts[pte->pfn] == 1`): only `writable` is set. -/
theorem fault_count1_eq (s : State) (vpn rw : Nat)
    (hv : (getPte s vpn).valid = true)
    (hw : (getPte s vpn).writable = false)
    (hrw : rw &&& RW_WRITE = RW_WRITE)
    (hp : (getPte s vpn).«private» ≠ RW_READ)
    (hc1 : s.mapcounts (getPte s vpn).pfn = 1) :
    handle_page_fault s vpn rw =
      (true, { s with current := { s.current with
        pagetable := setDir s.current.pagetable (vpn / NR_PTES_PER_PAGE)
          (setPteInDir (getDir s.current.pagetable (vpn / NR_PTES_PER_PAGE))
            (vpn % NR_PTES_PER_PAGE) { getPte s vpn with writable := true }) } }) := by
  obtain ⟨d, hd⟩ := getPte_valid_dir hv
  rw [getPte_of_dir hd] at hv hw hp hc1 ⊢
  simp only [handle_page_fault]
  rw [hd, getDir_eq hd]
  simp [hv, hw, hrw, hp, hc1]

/-- Claim C5: a write fault on a valid, non-writable entry whose tag is not
read-only and whose frame has reference count exactly 1 succeeds by setting
`writable = true` in place: the frame binding, every reference count, the
TLB, the ready list and every other page table entry are unchanged, and no
frame is allocated. -/
theorem C5_sole_owner_write (s : State) (vpn rw : Nat)
    (hv : (getPte s vpn).valid = true)
    (hw : (getPte s vpn).writable = false)
    (hrw : rw &&& RW_WRITE = RW_WRITE)
    (hp : (getPte s vpn).«private» ≠ RW_READ)
    (hc1 : s.mapcounts (getPte s vpn).pfn = 1) :
    (handle_page_fault s vpn rw).1 = true ∧
    getPte (handle_page_fault s vpn rw).2 vpn = { getPte s vpn with writable := true } ∧
    (∀ v, v ≠ vpn → getPte (handle_page_fault s vpn rw).2 v = getPte s v) ∧
    (handle_page_fault s vpn rw).2.mapcounts = s.mapcounts ∧
    (handle_page_fault s vpn rw).2.tlb = s.tlb ∧
    (handle_page_fault s vpn rw).2.processes = s.processes := by
  have key := fault_count1_eq s vpn rw hv hw hrw hp hc1
  rw [key]
  refine ⟨rfl, ?_, ?_, rfl, rfl, rfl⟩
  · have hgp := getPte_setDir s s.current s.current.pid vpn
      { getPte s vpn with writable := true } vpn
    rw [if_pos rfl] at hgp
    exact hgp
  · intro v hv2
    have hgp := getPte_setDir s s.current s.current.pid vpn
      { getPte s vpn with writable := true } v
    rw [if_neg hv2] at hgp
    exact hgp

/-- A state with one process owning vpn 5 alone: frame 7, count 1. -/
def c5w : State :=
  ⟨⟨0, ⟨fun i => if i = 0 then
      some ⟨fun j => if j = 5 then ⟨true, false, 7, 3⟩ else defaultPTE⟩
    else none⟩⟩, [], [], fun k => if k = 7 then 1 else 0⟩

theorem C5_sole_owner_write_witness :
    ((getPte c5w 5).valid = true ∧ (getPte c5w 5).writable = false ∧
      (RW_WRITE ||| RW_READ) &&& RW_WRITE = RW_WRITE ∧
      (getPte c5w 5).«private» ≠ RW_READ ∧ c5w.mapcounts (getPte c5w 5).pfn = 1) ∧
    (handle_page_fault c5w 5 (RW_WRITE ||| RW_READ)).1 = true ∧
    getPte (handle_page_fault c5w 5 (RW_WRITE ||| RW_READ)).2 5 =
      { getPte c5w 5 with writable := true } ∧
    getPte (handle_page_fault c5w 5 (RW_WRITE ||| RW_READ)).2 0 = getPte c5w 0 ∧
    (handle_page_fault c5w 5 (RW_WRITE ||| RW_READ)).2.mapcounts = c5w.mapcounts := by
  have h := C5_sole_owner_write c5w 5 (RW_WRITE ||| RW_READ)
    (by decide) (by decide) (by decide) (by decide) (by decide)
  exact ⟨⟨by decide, by decide, by decide, by decide, by decide⟩,
    h.1, h.2.1, h.2.2.1 0 (by decide), h.2.2.2.1⟩

/-! ### Claims C4 and C9 -/

theorem alloc_pte_valid (e : PTE) (rw : Nat) : (alloc_pte e rw).valid = true := by
  unfold alloc_pte
  dsimp only
  split
  · rfl
  · split
    · rfl
    · rfl

theorem alloc_pte_read (e : PTE) :
    alloc_pte e RW_READ = { e with valid := true, writable := false, «private» := RW_READ } := by
  simp [alloc_pte]

theorem alloc_pte_rw (e : PTE) :
    alloc_pte e (RW_WRITE ||| RW_READ) = { e with valid := true, writable := true } := by
  unfold alloc_pte
  rw [if_neg (by decide), if_pos rfl]

/-- Functional description of `alloc_page` when no frame is free: the PTE is
still validated and permission-tagged, nothing else changes, and `-1` is
returned. -/
theorem alloc_fail_eq (s : State) (vpn rw : Nat)
    (hfull : ∀ f, f < NR_PAGEFRAMES → s.mapcounts f ≠ 0) :
    alloc_page s vpn rw =
      (-1, { s with current := { s.current with
        pagetable := setDir s.current.pagetable (vpn / NR_PTES_PER_PAGE)
          (setPteInDir (getDir s.current.pagetable (vpn / NR_PTES_PER_PAGE))
            (vpn % NR_PTES_PER_PAGE) (alloc_pte (getPte s vpn) rw)) } }) := by
  have hsm := find_smallest_pfn_full s.mapcounts hfull
  simp only [alloc_page]
  rw [hsm]
  simp [getPte]

/-- Functional description of `alloc_page` when some frame is free. -/
theorem alloc_succ_eq (s : State) (vpn rw : Nat)
    (hfree : ∃ f, f < NR_PAGEFRAMES ∧ s.mapcounts f = 0) :
    alloc_page s vpn rw =
      (Int.ofNat (find_smallest_pfn s.mapcounts),
       { s with
         current := { s.current with
           pagetable := setDir s.current.pagetable (vpn / NR_PTES_PER_PAGE)
             (setPteInDir (getDir s.current.pagetable (vpn / NR_PTES_PER_PAGE))
               (vpn % NR_PTES_PER_PAGE)
               { alloc_pte (getPte s vpn) rw with pfn := find_smallest_pfn s.mapcounts }) },
         mapcounts := fun k =>
           if k = find_smallest_pfn s.mapcounts then
             uinc (s.mapcounts (find_smallest_pfn s.mapcounts))
           else s.mapcounts k }) := by
  have hlt := (find_smallest_pfn_spec s.mapcounts hfree).1
  simp only [alloc_page]
  rw [if_neg (Nat.ne_of_lt hlt)]
  simp [getPte]

/-- Claim C4: whenever some frame has reference count 0, `alloc_page` binds
and returns the numerically smallest such frame and increments exactly its
count; whenever every frame is in use it returns `-1`
(deterministically — the model is a function). -/
theorem C4_alloc_smallest (s : State) (vpn rw : Nat) :
    ((∃ f, f < NR_PAGEFRAMES ∧ s.mapcounts f = 0) →
      ∃ r, r < NR_PAGEFRAMES ∧ s.mapcounts r = 0 ∧ (∀ k, k < r → s.mapcounts k ≠ 0) ∧
        (alloc_page s vpn rw).1 = Int.ofNat r ∧
        (getPte (alloc_page s vpn rw).2 vpn).pfn = r ∧
        (getPte (alloc_page s vpn rw).2 vpn).valid = true ∧
        (alloc_page s vpn rw).2.mapcounts r = s.mapcounts r + 1 ∧
        ∀ k, k ≠ r → (alloc_page s vpn rw).2.mapcounts k = s.mapcounts k) ∧
    ((∀ f, f < NR_PAGEFRAMES → s.mapcounts f ≠ 0) → (alloc_page s vpn rw).1 = -1) := by
  constructor
  · intro hfree
    obtain ⟨hlt, hzero, hmin⟩ := find_smallest_pfn_spec s.mapcounts hfree
    have hgp := getPte_setDir s s.current s.current.pid vpn
      { alloc_pte (getPte s vpn) rw with pfn := find_smallest_pfn s.mapcounts } vpn
    rw [if_pos rfl] at hgp
    refine ⟨find_smallest_pfn s.mapcounts, hlt, hzero, hmin, ?_, ?_, ?_, ?_, ?_⟩
    · rw [alloc_succ_eq s vpn rw hfree]
    · rw [alloc_succ_eq s vpn rw hfree]
      exact congrArg PTE.pfn hgp
    · rw [alloc_succ_eq s vpn rw hfree]
      exact (congrArg PTE.valid hgp).trans (alloc_pte_valid _ _)
    · rw [alloc_succ_eq s vpn rw hfree]
      dsimp only
      rw [if_pos rfl, hzero]
      decide
    · intro k hk
      rw [alloc_succ_eq s vpn rw hfree]
      dsimp only
      rw [if_neg hk]
  · intro hfull
    rw [alloc_fail_eq s vpn rw hfull]

/-- A state in which every frame is in use. -/
def sFull : State := ⟨⟨0, emptyPageTable⟩, [], [], fun _ => 1⟩

theorem C4_alloc_smallest_witness :
    (alloc_page initState 0 (RW_WRITE ||| RW_READ)).1 = Int.ofNat 0 ∧
    (alloc_page initState 0 (RW_WRITE ||| RW_READ)).2.mapcounts 0 =
      initState.mapcounts 0 + 1 ∧
    (alloc_page sFull 0 (RW_WRITE ||| RW_READ)).1 = -1 := by
  obtain ⟨r, hlt, hz, hmin, hret, hpfn, hval, hinc, hother⟩ :=
    (C4_alloc_smallest initState 0 (RW_WRITE ||| RW_READ)).1 ⟨0, by decide, rfl⟩
  have hr0 : r = 0 := by
    rcases Nat.eq_zero_or_pos r with h | h
    · exact h
    · exact absurd rfl (hmin 0 h)
  subst hr0
  exact ⟨hret, hinc, (C4_alloc_smallest sFull 0 (RW_WRITE ||| RW_READ)).2 (by decide)⟩

/-- Claim C9: when `alloc_page` fails with `-1`, the reference counts, the
TLB and the ready list are unchanged, but the faulting process's PTE for
`vpn` has been marked valid — with permission bits set according to `rw` and
the inner directory present — so the failed allocation is not atomic with
respect to the page table. -/
theorem C9_failed_alloc_not_atomic (s : State) (vpn rw : Nat)
    (hfull : ∀ f, f < NR_PAGEFRAMES → s.mapcounts f ≠ 0) :
    (alloc_page s vpn rw).1 = -1 ∧
    (alloc_page s vpn rw).2.mapcounts = s.mapcounts ∧
    (alloc_page s vpn rw).2.tlb = s.tlb ∧
    (alloc_page s vpn rw).2.processes = s.processes ∧
    (getPte (alloc_page s vpn rw).2 vpn).valid = true ∧
    ((alloc_page s vpn rw).2.current.pagetable.outer_ptes (vpn / NR_PTES_PER_PAGE)).isSome
      = true ∧
    (rw = RW_READ →
      (getPte (alloc_page s vpn rw).2 vpn).writable = false ∧
      (getPte (alloc_page s vpn rw).2 vpn).«private» = RW_READ) ∧
    (rw = (RW_WRITE ||| RW_READ) → (getPte (alloc_page s vpn rw).2 vpn).writable = true) := by
  rw [alloc_fail_eq s vpn rw hfull]
  have hgp := getPte_setDir s s.current s.current.pid vpn (alloc_pte (getPte s vpn) rw) vpn
  rw [if_pos rfl] at hgp
  refine ⟨rfl, rfl, rfl, rfl, ?_, ?_, ?_, ?_⟩
  · rw [hgp]
    exact alloc_pte_valid _ _
  · simp [setDir]
  · intro h1
    subst h1
    rw [hgp, alloc_pte_read]
    exact ⟨rfl, rfl⟩
  · intro h3
    subst h3
    rw [hgp, alloc_pte_rw]

theorem C9_failed_alloc_not_atomic_witness :
    (alloc_page sFull 3 RW_READ).1 = -1 ∧
    (alloc_page sFull 3 RW_READ).2.mapcounts = sFull.mapcounts ∧
    (alloc_page sFull 3 RW_READ).2.tlb = sFull.tlb ∧
    (getPte (alloc_page sFull 3 RW_READ).2 3).valid = true ∧
    (getPte (alloc_page sFull 3 RW_READ).2 3).writable = false ∧
    (getPte (alloc_page sFull 3 RW_READ).2 3).«private» = RW_READ := by
  have h := C9_failed_alloc_not_atomic sFull 3 RW_READ (by decide)
  exact ⟨h.1, h.2.1, h.2.2.1, h.2.2.2.2.1,
    (h.2.2.2.2.2.2.1 rfl).1, (h.2.2.2.2.2.2.1 rfl).2⟩

/-! ### Claim C3 -/

/-- Claim C3 failing input: process A (pid 0) inserts the translation
vpn 0 → pfn 0, then `switch_process 1` forks B and is supposed to flush the
TLB.  The `memset` zeroes the entries but `tlbSize` is not reset, so B's
`lookup_tlb 0` still returns pfn 0 — exactly the translation A inserted.
For the same trace with the translation vpn 0 → pfn 5, the lookup returns
the phantom translation `some 0` instead of missing: the TLB does not
"reflect exactly the translations explicitly inserted since the last
flush". -/
theorem C3_stale_tlb_after_switch :
    lookup_tlb (insert_tlb initState 0 0) 0 = some 0 ∧
    (switch_process (insert_tlb initState 0 0) 1).current.pid = 1 ∧
    lookup_tlb (switch_process (insert_tlb initState 0 0) 1) 0 = some 0 ∧
    lookup_tlb (switch_process (insert_tlb initState 0 5) 1) 0 = some 0 := by
  refine ⟨?_, ?_, ?_, ?_⟩ <;> decide

/-! ### Claim C7 -/

/-- The state used to exhibit the `free_page` TLB-eviction bug: two pages
allocated (frames 0 and 1), and both translations inserted into the TLB. -/
def c7state : State :=
  insert_tlb (insert_tlb
    (alloc_page (alloc_page initState 0 (RW_WRITE ||| RW_READ)).2
      1 (RW_WRITE ||| RW_READ)).2 0 0) 1 1

/-- Claim C7 failing input: after `free_page 0`, `lookup_tlb 0` still
returns pfn 0 and `lookup_tlb 1` returns nothing — the opposite of the
claim.  The eviction loop marks the matched entry invalid (which
`lookup_tlb` never checks) and decrements `tlbSize`, thereby hiding the
*last* TLB entry (here the one for vpn 1) instead of the matched one. -/
theorem C7_free_evicts_wrong_entry :
    lookup_tlb c7state 0 = some 0 ∧ lookup_tlb c7state 1 = some 1 ∧
    ((free_page c7state 0).map fun t => (lookup_tlb t 0, lookup_tlb t 1)) =
      some (some 0, none) := by
  refine ⟨?_, ?_, ?_⟩ <;> decide

/-! ### The COW duplication branch (claims C2 and C10) -/

/-- Entry lookup on a bare page table (what the walk
`outer_ptes[vpn / NR_PTES_PER_PAGE]->ptes[vpn % NR_PTES_PER_PAGE]` reads). -/
def ptLookup (pt : PageTable) (vpn : Nat) : PTE :=
  (getDir pt (vpn / NR_PTES_PER_PAGE)).ptes (vpn % NR_PTES_PER_PAGE)

theorem ptLookup_setDir (pt : PageTable) (vpn : Nat) (e : PTE) (v : Nat) :
    ptLookup (setDir pt (vpn / NR_PTES_PER_PAGE)
      (setPteInDir (getDir pt (vpn / NR_PTES_PER_PAGE)) (vpn % NR_PTES_PER_PAGE) e)) v =
      if v = vpn then e else ptLookup pt v := by
  by_cases hv : v = vpn
  · subst hv
    simp [ptLookup, getDir, setDir, setPteInDir]
  · have : v / NR_PTES_PER_PAGE ≠ vpn / NR_PTES_PER_PAGE ∨
        v % NR_PTES_PER_PAGE ≠ vpn % NR_PTES_PER_PAGE := by
      by_contra hc
      push_neg at hc
      exact hv (vpn_eq_of_div_mod hc.1 hc.2)
    rcases this with hne | hne
    · simp [ptLookup, getDir, setDir, hv, hne]
    · by_cases ho : v / NR_PTES_PER_PAGE = vpn / NR_PTES_PER_PAGE
      · simp [ptLookup, getDir, setDir, setPteInDir, hv, ho, hne]
      · simp [ptLookup, getDir, setDir, hv, ho]

/-- `mapcounts` right after the COW branch's `mapcounts[pte->pfn]--`. -/
def cow_dec (s : State) (vpn : Nat) : Nat → Nat :=
  fun k => if k = (getPte s vpn).pfn then udec (s.mapcounts (getPte s vpn).pfn)
           else s.mapcounts k

/-- Functional description of the COW duplication branch
(`mapcounts[pte->pfn] >= 2`): decrement the shared frame's count, rebind the
entry to `find_smallest_pfn` of the decremented table, set `writable`, and
increment the count of whatever index that search returned — with no
out-of-memory check. -/
theorem fault_cow_eq (s : State) (vpn rw : Nat)
    (hv : (getPte s vpn).valid = true)
    (hw : (getPte s vpn).writable = false)
    (hrw : rw &&& RW_WRITE = RW_WRITE)
    (hp : (getPte s vpn).«private» ≠ RW_READ)
    (hc2 : 2 ≤ s.mapcounts (getPte s vpn).pfn) :
    handle_page_fault s vpn rw =
      (true, { s with
        current := { s.current with
          pagetable := setDir s.current.pagetable (vpn / NR_PTES_PER_PAGE)
            (setPteInDir (getDir s.current.pagetable (vpn / NR_PTES_PER_PAGE))
              (vpn % NR_PTES_PER_PAGE)
              { getPte s vpn with
                writable := true
                pfn := find_smallest_pfn (cow_dec s vpn) }) },
        mapcounts := fun k =>
          if k = find_smallest_pfn (cow_dec s vpn) then
            uinc (cow_dec s vpn (find_smallest_pfn (cow_dec s vpn)))
          else cow_dec s vpn k }) := by
  have hne1 : s.mapcounts (getPte s vpn).pfn ≠ 1 := by omega
  obtain ⟨d, hd⟩ := getPte_valid_dir hv
  have hcd : cow_dec s vpn = fun k =>
      if k = (d.ptes (vpn % NR_PTES_PER_PAGE)).pfn then
        udec (s.mapcounts (d.ptes (vpn % NR_PTES_PER_PAGE)).pfn)
      else s.mapcounts k := by
    funext k
    simp only [cow_dec, getPte_of_dir hd]
  rw [getPte_of_dir hd] at hv hw hp hc2 hne1 ⊢
  rw [hcd]
  simp only [handle_page_fault]
  rw [hd, getDir_eq hd]
  simp [hv, hw, hrw, hp, hne1, hc2]

/-- A state in which the entry for vpn 0 is COW-shared (frame 0, count 2)
with the ready process pid 0, and every other frame is also in use. -/
def cexC2 : State :=
  ⟨⟨1, ⟨fun i => if i = 0 then
      some ⟨fun j => if j = 0 then ⟨true, false, 0, 0⟩ else defaultPTE⟩
    else none⟩⟩,
   [⟨0, ⟨fun i => if i = 0 then
      some ⟨fun j => if j = 0 then ⟨true, false, 0, 0⟩ else defaultPTE⟩
    else none⟩⟩],
   [],
   fun k => if k = 0 then 2 else 1⟩

/-- Claim C2 counterexample: in a state satisfying every condition of the
claim (valid, non-writable, tag not read-only, bound frame shared with count
2) but with no free frame, the handler still "succeeds" and binds
`pfn = NR_PAGEFRAMES` — not the lowest-numbered free frame, which does not
exist (every frame index below `NR_PAGEFRAMES` has nonzero count in
`cexC2`), and increments the out-of-bounds counter `mapcounts[NR_PAGEFRAMES]`. -/
theorem C2_counterexample :
    (getPte cexC2 0).valid = true ∧ (getPte cexC2 0).writable = false ∧
    (getPte cexC2 0).«private» ≠ RW_READ ∧
    2 ≤ cexC2.mapcounts (getPte cexC2 0).pfn ∧
    (RW_WRITE ||| RW_READ) &&& RW_WRITE = RW_WRITE ∧
    (handle_page_fault cexC2 0 (RW_WRITE ||| RW_READ)).1 = true ∧
    (getPte (handle_page_fault cexC2 0 (RW_WRITE ||| RW_READ)).2 0).pfn = NR_PAGEFRAMES ∧
    (handle_page_fault cexC2 0 (RW_WRITE ||| RW_READ)).2.mapcounts NR_PAGEFRAMES =
      cexC2.mapcounts NR_PAGEFRAMES + 1 := by
  refine ⟨?_, ?_, ?_, ?_, ?_, ?_, ?_, ?_⟩ <;> decide

/-- Claim C2 (amended with the precondition that some frame is free, which
the counterexample shows is necessary, and with counts below `2^32` as they
are in C by type): a write fault on a valid, non-writable entry whose tag is
not read-only and whose bound frame has count ≥ 2 performs the COW
duplication: the shared frame's count is decremented (staying ≥ 1 for the
sibling), the entry is rebound to the lowest-numbered free frame `r` whose
count becomes 1, `writable` is set, success is returned, and every other
count, every other entry, the ready processes (hence the sibling's page
table) and the TLB are untouched. -/
theorem C2_cow_duplication (s : State) (vpn rw : Nat)
    (hv : (getPte s vpn).valid = true)
    (hw : (getPte s vpn).writable = false)
    (hrw : rw &&& RW_WRITE = RW_WRITE)
    (hp : (getPte s vpn).«private» ≠ RW_READ)
    (hc2 : 2 ≤ s.mapcounts (getPte s vpn).pfn)
    (hM : s.mapcounts (getPte s vpn).pfn < UINT_MOD)
    (hfree : ∃ f, f < NR_PAGEFRAMES ∧ s.mapcounts f = 0) :
    ∃ r, r < NR_PAGEFRAMES ∧ s.mapcounts r = 0 ∧ (∀ k, k < r → s.mapcounts k ≠ 0) ∧
      r ≠ (getPte s vpn).pfn ∧
      (handle_page_fault s vpn rw).1 = true ∧
      getPte (handle_page_fault s vpn rw).2 vpn =
        { getPte s vpn with writable := true, pfn := r } ∧
      (handle_page_fault s vpn rw).2.mapcounts (getPte s vpn).pfn =
        s.mapcounts (getPte s vpn).pfn - 1 ∧
      1 ≤ (handle_page_fault s vpn rw).2.mapcounts (getPte s vpn).pfn ∧
      (handle_page_fault s vpn rw).2.mapcounts r = 1 ∧
      (∀ k, k ≠ r → k ≠ (getPte s vpn).pfn →
        (handle_page_fault s vpn rw).2.mapcounts k = s.mapcounts k) ∧
      (∀ v, v ≠ vpn → getPte (handle_page_fault s vpn rw).2 v = getPte s v) ∧
      (handle_page_fault s vpn rw).2.processes = s.processes ∧
      (handle_page_fault s vpn rw).2.tlb = s.tlb := by
  have key := fault_cow_eq s vpn rw hv hw hrw hp hc2
  have hdec_old : cow_dec s vpn (getPte s vpn).pfn
      = s.mapcounts (getPte s vpn).pfn - 1 := by
    simp only [cow_dec, if_true]
    exact udec_eq_of_pos (Nat.le_of_succ_le hc2) hM
  have hdec_ne : ∀ k, k ≠ (getPte s vpn).pfn → cow_dec s vpn k = s.mapcounts k := by
    intro k hk
    simp [cow_dec, hk]
  have hfree' : ∃ f, f < NR_PAGEFRAMES ∧ cow_dec s vpn f = 0 := by
    obtain ⟨f, hf1, hf2⟩ := hfree
    have hfne : f ≠ (getPte s vpn).pfn := by
      intro he
      rw [he] at hf2
      omega
    exact ⟨f, hf1, by rw [hdec_ne f hfne]; exact hf2⟩
  obtain ⟨hrlt, hrzero, hrmin⟩ := find_smallest_pfn_spec (cow_dec s vpn) hfree'
  have hrne : find_smallest_pfn (cow_dec s vpn) ≠ (getPte s vpn).pfn := by
    intro he
    rw [he, hdec_old] at hrzero
    omega
  have hrzero' : s.mapcounts (find_smallest_pfn (cow_dec s vpn)) = 0 := by
    rw [← hdec_ne _ hrne]
    exact hrzero
  have hrmin' : ∀ k, k < find_smallest_pfn (cow_dec s vpn) → s.mapcounts k ≠ 0 := by
    intro k hk
    by_cases hko : k = (getPte s vpn).pfn
    · rw [hko]
      omega
    · rw [← hdec_ne _ hko]
      exact hrmin k hk
  refine ⟨find_smallest_pfn (cow_dec s vpn), hrlt, hrzero', hrmin', hrne,
    ?_, ?_, ?_, ?_, ?_, ?_, ?_, ?_, ?_⟩
  · rw [key]
  · rw [key]
    have hgp := ptLookup_setDir s.current.pagetable vpn
      { getPte s vpn with
        writable := true
        pfn := find_smallest_pfn (cow_dec s vpn) } vpn
    rw [if_pos rfl] at hgp
    exact hgp
  · rw [key]
    dsimp only
    rw [if_neg (Ne.symm hrne)]
    exact hdec_old
  · rw [key]
    dsimp only
    rw [if_neg (Ne.symm hrne), hdec_old]
    omega
  · rw [key]
    dsimp only
    rw [if_pos rfl, hrzero]
    decide
  · intro k h1 h2
    rw [key]
    dsimp only
    rw [if_neg h1]
    exact hdec_ne k h2
  · intro v hv2
    rw [key]
    have hgp := ptLookup_setDir s.current.pagetable vpn
      { getPte s vpn with
        writable := true
        pfn := find_smallest_pfn (cow_dec s vpn) } v
    rw [if_neg hv2] at hgp
    exact hgp
  · rw [key]
  · rw [key]

/-- A state like `cexC2` but with all frames other than the shared frame 0
free. -/
def c2w : State :=
  ⟨⟨1, ⟨fun i => if i = 0 then
      some ⟨fun j => if j = 0 then ⟨true, false, 0, 0⟩ else defaultPTE⟩
    else none⟩⟩,
   [⟨0, ⟨fun i => if i = 0 then
      some ⟨fun j => if j = 0 then ⟨true, false, 0, 0⟩ else defaultPTE⟩
    else none⟩⟩],
   [],
   fun k => if k = 0 then 2 else 0⟩

theorem C2_cow_duplication_witness :
    ((getPte c2w 0).valid = true ∧ (getPte c2w 0).writable = false ∧
      (getPte c2w 0).«private» ≠ RW_READ ∧ 2 ≤ c2w.mapcounts (getPte c2w 0).pfn) ∧
    (handle_page_fault c2w 0 (RW_WRITE ||| RW_READ)).1 = true ∧
    getPte (handle_page_fault c2w 0 (RW_WRITE ||| RW_READ)).2 0 =
      { getPte c2w 0 with writable := true, pfn := 1 } ∧
    (handle_page_fault c2w 0 (RW_WRITE ||| RW_READ)).2.mapcounts 0 = 1 ∧
    (handle_page_fault c2w 0 (RW_WRITE ||| RW_READ)).2.mapcounts 1 = 1 ∧
    (handle_page_fault c2w 0 (RW_WRITE ||| RW_READ)).2.processes = c2w.processes ∧
    getPte (handle_page_fault c2w 0 (RW_WRITE ||| RW_READ)).2 7 = getPte c2w 7 := by
  obtain ⟨r, hrlt, hrz, hrmin, hrne, h1, h2, h3, h4, h5, h6, h7, h8, h9⟩ :=
    C2_cow_duplication c2w 0 (RW_WRITE ||| RW_READ) (by decide) (by decide) (by decide)
      (by decide) (by decide) (by decide) ⟨1, by decide, by decide⟩
  have hr : r = 1 := by
    have hr0 : r ≠ 0 := fun h => absurd (h ▸ hrz) (by decide)
    have hr1 : ¬ (1 < r) := fun h => (hrmin 1 h) (by decide)
    omega
  subst hr
  exact ⟨⟨by decide, by decide, by decide, by decide⟩, h1, h2, h3, h5, h8, h7 7 (by decide)⟩

/-- Claim C10: in the COW duplication branch, under the precondition that
some frame is free after the decrement (equivalently: some frame other than
the shared one is free), the newly bound pfn is a real frame index and
`mapcounts` is only changed at indices below `NR_PAGEFRAMES`; without that
precondition the branch — which has no out-of-memory check — still returns
success, binds `pfn = NR_PAGEFRAMES`, and increments
`mapcounts[NR_PAGEFRAMES]`, an out-of-bounds access in C. -/
theorem C10_cow_bounds (s : State) (vpn rw : Nat)
    (hv : (getPte s vpn).valid = true)
    (hw : (getPte s vpn).writable = false)
    (hrw : rw &&& RW_WRITE = RW_WRITE)
    (hp : (getPte s vpn).«private» ≠ RW_READ)
    (hpfn : (getPte s vpn).pfn < NR_PAGEFRAMES)
    (hc2 : 2 ≤ s.mapcounts (getPte s vpn).pfn)
    (hM : s.mapcounts (getPte s vpn).pfn < UINT_MOD) :
    ((∃ f, f < NR_PAGEFRAMES ∧ f ≠ (getPte s vpn).pfn ∧ s.mapcounts f = 0) →
      (getPte (handle_page_fault s vpn rw).2 vpn).pfn < NR_PAGEFRAMES ∧
      ∀ k, ¬ k < NR_PAGEFRAMES →
        (handle_page_fault s vpn rw).2.mapcounts k = s.mapcounts k) ∧
    ((∀ f, f < NR_PAGEFRAMES → f ≠ (getPte s vpn).pfn → s.mapcounts f ≠ 0) →
      (handle_page_fault s vpn rw).1 = true ∧
      (getPte (handle_page_fault s vpn rw).2 vpn).pfn = NR_PAGEFRAMES ∧
      (handle_page_fault s vpn rw).2.mapcounts NR_PAGEFRAMES =
        uinc (s.mapcounts NR_PAGEFRAMES)) := by
  have key := fault_cow_eq s vpn rw hv hw hrw hp hc2
  have hdec_old : cow_dec s vpn (getPte s vpn).pfn
      = s.mapcounts (getPte s vpn).pfn - 1 := by
    simp only [cow_dec, if_true]
    exact udec_eq_of_pos (Nat.le_of_succ_le hc2) hM
  have hdec_ne : ∀ k, k ≠ (getPte s vpn).pfn → cow_dec s vpn k = s.mapcounts k := by
    intro k hk
    simp [cow_dec, hk]
  have hgp := ptLookup_setDir s.current.pagetable vpn
    { getPte s vpn with
      writable := true
      pfn := find_smallest_pfn (cow_dec s vpn) } vpn
  rw [if_pos rfl] at hgp
  constructor
  · intro hfree
    have hfree' : ∃ f, f < NR_PAGEFRAMES ∧ cow_dec s vpn f = 0 := by
      obtain ⟨f, hf1, hf2, hf3⟩ := hfree
      exact ⟨f, hf1, by rw [hdec_ne f hf2]; exact hf3⟩
    obtain ⟨hrlt, _, _⟩ := find_smallest_pfn_spec (cow_dec s vpn) hfree'
    constructor
    · rw [key]
      exact lt_of_eq_of_lt (congrArg PTE.pfn hgp) hrlt
    · intro k hk
      rw [key]
      dsimp only
      rw [if_neg (by omega : ¬ k = find_smallest_pfn (cow_dec s vpn))]
      exact hdec_ne k (by omega)
  · intro hfull
    have hfull' : ∀ f, f < NR_PAGEFRAMES → cow_dec s vpn f ≠ 0 := by
      intro f hf
      by_cases hfo : f = (getPte s vpn).pfn
      · rw [hfo, hdec_old]
        omega
      · rw [hdec_ne f hfo]
        exact hfull f hf hfo
    have hfind := find_smallest_pfn_full (cow_dec s vpn) hfull'
    refine ⟨by rw [key], ?_, ?_⟩
    · rw [key]
      exact (congrArg PTE.pfn hgp).trans hfind
    · rw [key]
      dsimp only
      rw [hfind, if_pos rfl]
      rw [hdec_ne NR_PAGEFRAMES (by omega)]

theorem C10_cow_bounds_witness :
    (getPte (handle_page_fault c2w 0 (RW_WRITE ||| RW_READ)).2 0).pfn < NR_PAGEFRAMES ∧
    (handle_page_fault c2w 0 (RW_WRITE ||| RW_READ)).2.mapcounts 200 =
      c2w.mapcounts 200 ∧
    (handle_page_fault cexC2 0 (RW_WRITE ||| RW_READ)).1 = true ∧
    (getPte (handle_page_fault cexC2 0 (RW_WRITE ||| RW_READ)).2 0).pfn = NR_PAGEFRAMES ∧
    (handle_page_fault cexC2 0 (RW_WRITE ||| RW_READ)).2.mapcounts NR_PAGEFRAMES =
      uinc (cexC2.mapcounts NR_PAGEFRAMES) := by
  have h1 := (C10_cow_bounds c2w 0 (RW_WRITE ||| RW_READ) (by decide) (by decide)
    (by decide) (by decide) (by decide) (by decide) (by decide)).1
    ⟨1, by decide, by decide, by decide⟩
  have h2 := (C10_cow_bounds cexC2 0 (RW_WRITE ||| RW_READ) (by decide) (by decide)
    (by decide) (by decide) (by decide) (by decide) (by decide)).2 (by decide)
  exact ⟨h1.1, h1.2 200 (by decide), h2.1, h2.2.1, h2.2.2⟩

/-! ### Claim C6 -/

/-- Number of valid entries of one inner directory bound to frame `f`. -/
def dir_nmaps (d : PTEDir) (f : Nat) : Nat :=
  (List.range NR_PTES_PER_PAGE).countP
    (fun j => (d.ptes j).valid && ((d.ptes j).pfn == f))

/-- Number of valid entries of the whole page table bound to frame `f`. -/
def nmaps (pt : PageTable) (f : Nat) : Nat :=
  ((List.range NR_PTES_PER_PAGE).map (fun i =>
    match pt.outer_ptes i with
    | none => 0
    | some d => dir_nmaps d f)).sum

theorem bump_lt {mc : Nat → Nat} (h : ∀ k, mc k < UINT_MOD) (f : Nat) :
    ∀ k, bump mc f k < UINT_MOD := by
  intro k
  unfold bump
  by_cases hk : k = f
  · rw [if_pos hk]
    exact uinc_lt _
  · rw [if_neg hk]
    exact h k

theorem dir_fold_lt (d : PTEDir) :
    ∀ (l : List Nat) (mc : Nat → Nat), (∀ k, mc k < UINT_MOD) →
      ∀ k, (l.foldl (fun b j => if (d.ptes j).valid then bump b (d.ptes j).pfn else b) mc) k
        < UINT_MOD := by
  intro l
  induction l with
  | nil => intro mc h k; exact h k
  | cons j t ih =>
    intro mc h k
    rw [List.foldl_cons]
    by_cases hv : (d.ptes j).valid = true
    · rw [if_pos hv]
      exact ih (bump mc (d.ptes j).pfn) (bump_lt h _) k
    · rw [if_neg hv]
      exact ih mc h k

theorem dir_fold_val (d : PTEDir) (f : Nat) :
    ∀ (l : List Nat) (mc : Nat → Nat), (∀ k, mc k < UINT_MOD) →
      (l.foldl (fun b j => if (d.ptes j).valid then bump b (d.ptes j).pfn else b) mc) f
        = (mc f + l.countP (fun j => (d.ptes j).valid && ((d.ptes j).pfn == f)))
            % UINT_MOD := by
  intro l
  induction l with
  | nil =>
    intro mc h
    rw [List.foldl_nil, List.countP_nil, Nat.add_zero]
    exact (Nat.mod_eq_of_lt (h f)).symm
  | cons j t ih =>
    intro mc h
    rw [List.foldl_cons, List.countP_cons]
    by_cases hv : (d.ptes j).valid = true
    · rw [if_pos hv, ih (bump mc (d.ptes j).pfn) (bump_lt h _)]
      by_cases hpf : (d.ptes j).pfn = f
      · have hb : bump mc (d.ptes j).pfn f = (mc f + 1) % UINT_MOD := by
          unfold bump
          rw [hpf, if_pos rfl]
          rfl
        have hpred : ((d.ptes j).valid && ((d.ptes j).pfn == f)) = true := by
          simp [hv, hpf]
        rw [hb, Nat.mod_add_mod, hpred]
        have harith : mc f + 1 + t.countP (fun j => (d.ptes j).valid && ((d.ptes j).pfn == f))
            = mc f + (t.countP (fun j => (d.ptes j).valid && ((d.ptes j).pfn == f))
              + if true = true then 1 else 0) := by
          simp
          omega
        rw [harith]
      · have hb : bump mc (d.ptes j).pfn f = mc f := by
          unfold bump
          rw [if_neg (fun he => hpf he.symm)]
        have hpred : ((d.ptes j).valid && ((d.ptes j).pfn == f)) = false := by
          simp [hpf]
        rw [hb, hpred]
        simp
    · have hvf : (d.ptes j).valid = false := by
        revert hv
        cases (d.ptes j).valid <;> simp
      rw [if_neg hv, ih mc h, hvf]
      simp

theorem outer_fold_val (pt : PageTable) (f : Nat) :
    ∀ (l : List Nat) (mc : Nat → Nat), (∀ k, mc k < UINT_MOD) →
      (l.foldl (fun a i => match pt.outer_ptes i with
          | none => a
          | some d => fork_dir_counts d a) mc) f
        = (mc f + (l.map (fun i => match pt.outer_ptes i with
            | none => 0
            | some d => dir_nmaps d f)).sum) % UINT_MOD := by
  intro l
  induction l with
  | nil =>
    intro mc h
    rw [List.foldl_nil, List.map_nil, List.sum_nil, Nat.add_zero]
    exact (Nat.mod_eq_of_lt (h f)).symm
  | cons i t ih =>
    intro mc h
    rw [List.foldl_cons, List.map_cons, List.sum_cons]
    cases hdi : pt.outer_ptes i with
    | none =>
      dsimp only
      rw [ih mc h]
      simp
    | some d =>
      dsimp only
      rw [ih (fork_dir_counts d mc) (dir_fold_lt d (List.range NR_PTES_PER_PAGE) mc h)]
      have hval : fork_dir_counts d mc f = (mc f + dir_nmaps d f) % UINT_MOD :=
        dir_fold_val d f (List.range NR_PTES_PER_PAGE) mc h
      rw [hval, Nat.mod_add_mod, Nat.add_assoc]

/-- The fork loop adds, to each frame's reference count, the number of valid
parent entries bound to that frame (mod `2^32`). -/
theorem fork_mapcounts_val (pt : PageTable) (mc : Nat → Nat)
    (h : ∀ k, mc k < UINT_MOD) (f : Nat) :
    fork_mapcounts pt mc f = (mc f + nmaps pt f) % UINT_MOD :=
  outer_fold_val pt f (List.range NR_PTES_PER_PAGE) mc h

/-- Claim C6: `switch_process(pid)` with a pid not in the ready list forks:
the child (now running) has, for every present directory and every valid
entry of the parent, an entry with the same `pfn`, the parent's pre-fork
original-permission tag, and `writable = false`; the parent's own copy is
also forced to `writable = false` and the parent moves to the tail of the
ready list; and every frame's reference count is incremented by exactly one
per valid parent entry bound to it (mod `2^32`; the hypothesis that counts
are below `2^32` is what the C `unsigned int` type guarantees). -/
theorem C6_fork_cow (s : State) (pid : Nat)
    (hfork : ∀ p ∈ s.processes, p.pid ≠ pid)
    (hM : ∀ f, s.mapcounts f < UINT_MOD) :
    (switch_process s pid).current.pid = pid ∧
    (switch_process s pid).current.pagetable = fork_child_pt s.current.pagetable ∧
    (switch_process s pid).processes =
      s.processes ++ [⟨s.current.pid, fork_parent_pt s.current.pagetable⟩] ∧
    (∀ i, i < NR_PTES_PER_PAGE → ∀ d, s.current.pagetable.outer_ptes i = some d →
      (fork_child_pt s.current.pagetable).outer_ptes i = some (fork_dir_child d) ∧
      (fork_parent_pt s.current.pagetable).outer_ptes i = some (fork_dir_parent d) ∧
      ∀ j, j < NR_PTES_PER_PAGE → (d.ptes j).valid = true →
        (fork_dir_child d).ptes j =
          ⟨true, false, (d.ptes j).pfn, (d.ptes j).«private»⟩ ∧
        (fork_dir_parent d).ptes j = { d.ptes j with writable := false }) ∧
    (∀ f, (switch_process s pid).mapcounts f =
      (s.mapcounts f + nmaps s.current.pagetable f) % UINT_MOD) := by
  have hfind : s.processes.find? (fun p => p.pid == pid) = none := by
    rw [List.find?_eq_none]
    intro p hp hbeq
    exact hfork p hp (by simpa using hbeq)
  unfold switch_process
  dsimp only
  rw [hfind]
  refine ⟨rfl, rfl, rfl, ?_, ?_⟩
  · intro i hi d hd
    refine ⟨?_, ?_, ?_⟩
    · simp [fork_child_pt, hi, hd]
    · simp [fork_parent_pt, hi, hd]
    · intro j hj hv
      constructor
      · simp [fork_dir_child, hj, fork_pte_child, hv]
      · simp [fork_dir_parent, hj, fork_pte_parent, hv]
  · intro f
    exact fork_mapcounts_val s.current.pagetable s.mapcounts hM f

/-- The parent's only directory in the C6 witness state: vpn 0 is valid,
writable, bound to frame 0. -/
def c6dir : PTEDir := ⟨fun j => if j = 0 then ⟨true, true, 0, 0⟩ else defaultPTE⟩

/-- C6 witness state: one running process owning frame 0 through vpn 0. -/
def c6w : State :=
  ⟨⟨0, ⟨fun i => if i = 0 then some c6dir else none⟩⟩, [], [],
   fun k => if k = 0 then 1 else 0⟩

theorem C6_fork_cow_witness :
    (switch_process c6w 1).current.pid = 1 ∧
    (switch_process c6w 1).current.pagetable.outer_ptes 0 = some (fork_dir_child c6dir) ∧
    (fork_dir_child c6dir).ptes 0 = ⟨true, false, 0, 0⟩ ∧
    (fork_dir_parent c6dir).ptes 0 = { c6dir.ptes 0 with writable := false } ∧
    (switch_process c6w 1).mapcounts 0 =
      (c6w.mapcounts 0 + nmaps c6w.current.pagetable 0) % UINT_MOD := by
  have hfork : ∀ p ∈ c6w.processes, p.pid ≠ 1 :=
    fun p hp => absurd hp (List.not_mem_nil p)
  have hM : ∀ f, c6w.mapcounts f < UINT_MOD := by
    intro f
    show (if f = 0 then 1 else 0) < UINT_MOD
    split <;> decide
  have h := C6_fork_cow c6w 1 hfork hM
  have hentry := h.2.2.2.1 0 (by decide) c6dir rfl
  refine ⟨h.1, ?_, (hentry.2.2 0 (by decide) (by decide)).1,
    (hentry.2.2 0 (by decide) (by decide)).2, h.2.2.2.2 0⟩
  rw [h.2.1]
  exact hentry.1

end PA3
